import Mathlib

/-!
Verification development for the cv-job-matcher repository.

Strings are modelled as `List Char`.  The functions below are shallow
embeddings of the Python source:
  - `src/utils/web_scraper.py` (`scrape_job_description`): whitespace
    normalization and the job-description section locator;
  - `src/models/bedrock_agent.py` (`BedrockAgentManager`): the request built
    by `invoke_model` and the brace-extraction / JSON-parse / fallback step
    shared by `analyze_cv`, `analyze_job_description` and
    `generate_cv_improvement_suggestions`;
  - `src/utils/pdf_parser.py` (`extract_text_from_pdf`): page concatenation
    and the wrapping of extraction failures.
-/

/-- Boolean test that `p` is a list prefix of `s` (character by character). -/
def isPfx : List Char → List Char → Bool
  | [], _ => true
  | _ :: _, [] => false
  | a :: as, b :: bs => a == b && isPfx as bs

/-- Lowercase every character, the model of a case-insensitive comparison.
The marker phrases of the source are ASCII, for which `Char.toLower` agrees
with the case folding performed by the Python regex module. -/
def lower (s : List Char) : List Char := s.map Char.toLower

/-- Index of the first occurrence of `pat` as a contiguous substring of the
text, the model of `re.search` on a literal pattern (`match.start()`). -/
def findSub (pat : List Char) : List Char → Option Nat
  | [] => if isPfx pat [] then some 0 else none
  | c :: rest => if isPfx pat (c :: rest) then some 0 else (findSub pat rest).map (· + 1)

/-- First pattern in the list that occurs anywhere in the text wins; its
first-occurrence index is returned.  This is the `for pattern in
job_desc_patterns` loop of `scrape_job_description` with its early return. -/
def findMarker : List (List Char) → List Char → Option Nat
  | [], _ => none
  | p :: ps, t =>
    match findSub p t with
    | some i => some i
    | none => findMarker ps t

/-- The apostrophe character, written by code point to keep the marker list
faithful to the source. -/
def apos : Char := Char.ofNat 39

/-- The ordered marker list `job_desc_patterns` of `scrape_job_description`
(each Python pattern is a case-insensitive literal). -/
def job_desc_patterns : List (List Char) :=
  [ "job description".toList
  , "about the job".toList
  , "about this role".toList
  , "responsibilities".toList
  , "what you".toList ++ [apos] ++ "ll do".toList
  , "requirements".toList ]

/-- Marker search and excerpt extraction of `scrape_job_description`,
generalized over the pattern list: on the first pattern matching anywhere,
return `text[start_idx : start_idx + 5000]`; otherwise `text[:5000]`. -/
def section_excerpt (ps : List (List Char)) (text : List Char) : List Char :=
  match findMarker ps (lower text) with
  | some i => (text.drop i).take 5000
  | none => text.take 5000

/-- The Section Locator of `scrape_job_description` (lines 42-60): the
pattern loop over `job_desc_patterns` followed by the unconditional
first-5000-characters fallback. -/
def find_job_section (text : List Char) : List Char :=
  section_excerpt job_desc_patterns text

/-- Characters at which Python `str.splitlines` breaks a line. -/
def isLineBreak (c : Char) : Bool :=
  c.toNat == 10 || c.toNat == 11 || c.toNat == 12 || c.toNat == 13 ||
  c.toNat == 28 || c.toNat == 29 || c.toNat == 30 || c.toNat == 133 ||
  c.toNat == 8232 || c.toNat == 8233

/-- Characters stripped by Python `str.strip()` (the Unicode whitespace set
used by CPython). -/
def isPySpace (c : Char) : Bool :=
  (9 ≤ c.toNat && c.toNat ≤ 13) || (28 ≤ c.toNat && c.toNat ≤ 31) ||
  c.toNat == 32 || c.toNat == 133 || c.toNat == 160 || c.toNat == 5760 ||
  (8192 ≤ c.toNat && c.toNat ≤ 8202) || c.toNat == 8232 || c.toNat == 8233 ||
  c.toNat == 8239 || c.toNat == 8287 || c.toNat == 12288

/-- Prepend a character to the first piece of a piece list (used to build
the splitting functions recursively). -/
def consHead (c : Char) : List (List Char) → List (List Char)
  | [] => [[c]]
  | p :: ps => (c :: p) :: ps

/-- Prepend a whole list to the first piece of a piece list. -/
def consHeadList (acc : List Char) : List (List Char) → List (List Char)
  | [] => [acc]
  | p :: ps => (acc ++ p) :: ps

/-- Python `str.splitlines()`: split at line-boundary characters, treating
CR LF as a single boundary, with no empty line for a trailing boundary. -/
def splitlines : List Char → List (List Char)
  | [] => []
  | c :: rest =>
    if c.toNat == 13 then
      match rest with
      | [] => [[]]
      | d :: rest2 =>
        if d.toNat == 10 then [] :: splitlines rest2
        else [] :: splitlines (d :: rest2)
    else if isLineBreak c then [] :: splitlines rest
    else consHead c (splitlines rest)

/-- Python `str.strip()`: drop whitespace from both ends. -/
def strip (s : List Char) : List Char :=
  ((s.dropWhile isPySpace).reverse.dropWhile isPySpace).reverse

/-- The space character. -/
def sp : Char := Char.ofNat 32

/-- Python `line.split("  ")`: split at non-overlapping two-space
occurrences, scanning left to right. -/
def split2sp : List Char → List (List Char)
  | [] => [[]]
  | [a] => [[a]]
  | a :: b :: rest =>
    if a == sp && b == sp then [] :: split2sp rest
    else consHead a (split2sp (b :: rest))

/-- Split at maximal runs of two or more spaces, written with an explicit
mode so that the recursion is structural: mode `true` means the scanner is
inside a separator run and absorbs the remaining spaces of the run. -/
def srM : Bool → List Char → List (List Char)
  | true, [] => [[]]
  | true, c :: rest =>
    if c == sp then srM true rest else consHead c (srM false rest)
  | false, [] => [[]]
  | false, [a] => [[a]]
  | false, a :: b :: rest =>
    if a == sp && b == sp then [] :: srM true rest
    else consHead a (srM false (b :: rest))

/-- Split at maximal runs of two or more spaces (consuming the whole run),
the splitting step named by the specification: "split each line on runs of
multiple spaces". -/
def splitRuns (s : List Char) : List (List Char) := srM false s

/-- Whitespace normalization of `scrape_job_description` (lines 33-39):
strip each line, split each stripped line at two-space occurrences, strip
each resulting phrase, drop the empty ones and rejoin with newlines. -/
def normalize_whitespace (text : List Char) : List Char :=
  let lines := (splitlines text).map strip
  let chunks := (lines.flatMap split2sp).map strip
  List.intercalate ['\n'] (chunks.filter (fun c => !c.isEmpty))

/-- Modelled from the spec: the reference normalization of section 4.1 read
literally — "split the text into lines, trim each line, further split each
line on runs of multiple spaces, discard the resulting empty fragments, and
rejoin the remaining fragments with single newlines" (no trimming of the
fragments themselves). -/
def normalize_whitespace_ref (text : List Char) : List Char :=
  let lines := (splitlines text).map strip
  List.intercalate ['\n'] ((lines.flatMap splitRuns).filter (fun c => !c.isEmpty))

/-- The reference normalization amended so that each fragment produced by
the run splitting is also trimmed before empty fragments are discarded. -/
def normalize_whitespace_ref_trimmed (text : List Char) : List Char :=
  let lines := (splitlines text).map strip
  List.intercalate ['\n'] (((lines.flatMap splitRuns).map strip).filter (fun c => !c.isEmpty))

/-- Strip every piece of a piece list and drop the empty results, the final
cleanup step shared by the normalization pipelines. -/
def cleanChunks (X : List (List Char)) : List (List Char) :=
  (X.map strip).filter (fun c => !c.isEmpty)

/-- Opening brace character (code point 123). -/
def obrace : Char := Char.ofNat 123

/-- Closing brace character (code point 125). -/
def cbrace : Char := Char.ofNat 125

/-- Double-quote character. -/
def dquote : Char := Char.ofNat 34

/-- Backslash character. -/
def bslash : Char := Char.ofNat 92

/-- JSON values, the model of what `json.loads` can return. -/
inductive Json where
  | null : Json
  | bool (b : Bool) : Json
  | num (n : Int) : Json
  | str (s : List Char) : Json
  | arr (xs : List Json) : Json
  | obj (kvs : List (List Char × Json)) : Json

/-- Whitespace skipped between JSON tokens. -/
def isJsonWs (c : Char) : Bool :=
  c.toNat == 32 || c.toNat == 9 || c.toNat == 10 || c.toNat == 13

/-- Drop leading JSON whitespace. -/
def skipWs (s : List Char) : List Char := s.dropWhile isJsonWs

/-- Translation of a single-character JSON string escape. -/
def escChar (c : Char) : Option Char :=
  if c == dquote then some dquote
  else if c == bslash then some bslash
  else if c == Char.ofNat 47 then some (Char.ofNat 47)
  else if c == Char.ofNat 98 then some (Char.ofNat 8)
  else if c == Char.ofNat 102 then some (Char.ofNat 12)
  else if c == Char.ofNat 110 then some (Char.ofNat 10)
  else if c == Char.ofNat 114 then some (Char.ofNat 13)
  else if c == Char.ofNat 116 then some (Char.ofNat 9)
  else none

/-- Parse the body of a JSON string after its opening quote, returning the
decoded characters and the remaining input. -/
def parseStringBody : List Char → Option (List Char × List Char)
  | [] => none
  | c :: rest =>
    if c == dquote then some ([], rest)
    else if c == bslash then
      match rest with
      | [] => none
      | e :: rest2 =>
        match escChar e with
        | some ec => (parseStringBody rest2).map (fun r => (ec :: r.1, r.2))
        | none => none
    else (parseStringBody rest).map (fun r => (c :: r.1, r.2))

/-- Decimal value of a digit list. -/
def digitsToNat (ds : List Char) : Nat :=
  ds.foldl (fun n c => n * 10 + (c.toNat - 48)) 0

/-- True when the input continues with a fractional part or an exponent. -/
def startsNumTail (s : List Char) : Bool :=
  match s with
  | [] => false
  | c :: _ => c.toNat == 46 || c.toNat == 101 || c.toNat == 69

/-- Parse a JSON integer literal.  Fractional and exponent forms, which
`json.loads` would accept as floats, are outside the modelled subset and
make the parse fail. -/
def parseNumber (s : List Char) : Option (Json × List Char) :=
  match s with
  | [] => none
  | c :: rest =>
    if c.toNat == 45 then
      let ds := rest.takeWhile Char.isDigit
      let rem := rest.dropWhile Char.isDigit
      if ds.isEmpty || startsNumTail rem then none
      else some (Json.num (-(digitsToNat ds : Int)), rem)
    else
      let ds := s.takeWhile Char.isDigit
      let rem := s.dropWhile Char.isDigit
      if ds.isEmpty || startsNumTail rem then none
      else some (Json.num (digitsToNat ds), rem)

/-- Parsing mode: a single value, the members of an object after its opening
brace, or the elements of an array after its opening bracket. -/
inductive PMode where
  | value : PMode
  | members : PMode
  | elements : PMode

/-- Result of a parse in each mode. -/
inductive PRes where
  | val (v : Json) : PRes
  | kvs (l : List (List Char × Json)) : PRes
  | vals (l : List Json) : PRes

/-- Recursive-descent JSON parser over an explicit fuel bound (structural on
the fuel so that concrete runs reduce definitionally). -/
def parseJ : Nat → PMode → List Char → Option (PRes × List Char)
  | 0, _, _ => none
  | fuel + 1, PMode.value, s0 =>
    match skipWs s0 with
    | [] => none
    | c :: rest =>
      if c == dquote then
        (parseStringBody rest).map (fun r => (PRes.val (Json.str r.1), r.2))
      else if c == obrace then
        match skipWs rest with
        | [] => none
        | d :: rest2 =>
          if d == cbrace then some (PRes.val (Json.obj []), rest2)
          else
            match parseJ fuel PMode.members (d :: rest2) with
            | some (PRes.kvs kvs, rem) => some (PRes.val (Json.obj kvs), rem)
            | _ => none
      else if c == Char.ofNat 91 then
        match skipWs rest with
        | [] => none
        | d :: rest2 =>
          if d == Char.ofNat 93 then some (PRes.val (Json.arr []), rest2)
          else
            match parseJ fuel PMode.elements (d :: rest2) with
            | some (PRes.vals vs, rem) => some (PRes.val (Json.arr vs), rem)
            | _ => none
      else if isPfx "true".toList (c :: rest) then
        some (PRes.val (Json.bool true), (c :: rest).drop 4)
      else if isPfx "false".toList (c :: rest) then
        some (PRes.val (Json.bool false), (c :: rest).drop 5)
      else if isPfx "null".toList (c :: rest) then
        some (PRes.val Json.null, (c :: rest).drop 4)
      else (parseNumber (c :: rest)).map (fun r => (PRes.val r.1, r.2))
  | fuel + 1, PMode.members, s0 =>
    match skipWs s0 with
    | [] => none
    | c :: rest =>
      if c == dquote then
        match parseStringBody rest with
        | none => none
        | some (key, rem1) =>
          match skipWs rem1 with
          | [] => none
          | d :: rem3 =>
            if d == Char.ofNat 58 then
              match parseJ fuel PMode.value rem3 with
              | some (PRes.val v, rem4) =>
                match skipWs rem4 with
                | [] => none
                | e :: rem6 =>
                  if e == Char.ofNat 44 then
                    match parseJ fuel PMode.members rem6 with
                    | some (PRes.kvs kvs, rem7) => some (PRes.kvs ((key, v) :: kvs), rem7)
                    | _ => none
                  else if e == cbrace then some (PRes.kvs [(key, v)], rem6)
                  else none
              | _ => none
            else none
      else none
  | fuel + 1, PMode.elements, s0 =>
    match parseJ fuel PMode.value s0 with
    | some (PRes.val v, rem) =>
      match skipWs rem with
      | [] => none
      | e :: rem2 =>
        if e == Char.ofNat 44 then
          match parseJ fuel PMode.elements rem2 with
          | some (PRes.vals vs, rem3) => some (PRes.vals (v :: vs), rem3)
          | _ => none
        else if e == Char.ofNat 93 then some (PRes.vals [v], rem2)
        else none
    | _ => none

/-- Modelled from the spec: the external structured-data parser
(`json.loads`) applied by the Analysis Client — parse one JSON value and
require that only whitespace remains. -/
def json_loads (s : List Char) : Option Json :=
  match parseJ (2 * s.length + 2) PMode.value s with
  | some (PRes.val v, rem) => if (skipWs rem).isEmpty then some v else none
  | _ => none

/-- Python `text.find(c)`: index of the first occurrence of a character
(`none` models the -1 of the source). -/
def find_char (c : Char) : List Char → Option Nat
  | [] => none
  | a :: rest => if a == c then some 0 else (find_char c rest).map (· + 1)

/-- Python `text.rfind(c)`: index of the last occurrence of a character. -/
def rfind_char (c : Char) : List Char → Option Nat
  | [] => none
  | a :: rest =>
    match rfind_char c rest with
    | some i => some (i + 1)
    | none => if a == c then some 0 else none

/-- Brace-window extraction shared by the three analysis operations:
`json_start = text.find(obrace)`, `json_end = text.rfind(cbrace) + 1`, and
the guard `json_start >= 0 and json_end > json_start`; on success the
substring `text[json_start:json_end]` is returned. -/
def extract_json (s : List Char) : Option (List Char) :=
  match find_char obrace s, rfind_char cbrace s with
  | some i, some j => if i < j + 1 then some ((s.drop i).take (j + 1 - i)) else none
  | _, _ => none

/-- Response parsing of `BedrockAgentManager.analyze_cv` (lines 106-118):
parse the brace window if the guard holds, and on any failure return the
fallback mapping under the key `raw_analysis`. -/
def analyze_cv_parse (response_text : List Char) : Json :=
  match extract_json response_text with
  | some json_str =>
    match json_loads json_str with
    | some v => v
    | none => Json.obj [("raw_analysis".toList, Json.str response_text)]
  | none => Json.obj [("raw_analysis".toList, Json.str response_text)]

/-- Response parsing of `BedrockAgentManager.analyze_job_description`
(lines 149-162), identical to the resume analysis, fallback key
`raw_analysis`. -/
def analyze_job_description_parse (response_text : List Char) : Json :=
  match extract_json response_text with
  | some json_str =>
    match json_loads json_str with
    | some v => v
    | none => Json.obj [("raw_analysis".toList, Json.str response_text)]
  | none => Json.obj [("raw_analysis".toList, Json.str response_text)]

/-- Response parsing of
`BedrockAgentManager.generate_cv_improvement_suggestions` (lines 197-210),
fallback key `suggestions`. -/
def generate_suggestions_parse (response_text : List Char) : Json :=
  match extract_json response_text with
  | some json_str =>
    match json_loads json_str with
    | some v => v
    | none => Json.obj [("suggestions".toList, Json.str response_text)]
  | none => Json.obj [("suggestions".toList, Json.str response_text)]

/-- Input to the Text Extractor: either the PDF library raises while reading
the document (carrying the exception text), or it yields the list of page
texts in order. -/
inductive PdfInput where
  | unreadable (cause : List Char) : PdfInput
  | readable (pages : List (List Char)) : PdfInput

/-- The error message prefix of `extract_text_from_pdf`. -/
def pdf_error_msg : List Char := "Error extracting text from PDF: ".toList

/-- Embedding of `extract_text_from_pdf` (src/utils/pdf_parser.py): start
from the empty string, append each page text followed by a newline, and
wrap any exception of the PDF library into a new exception whose message
carries the underlying cause. -/
def extract_text_from_pdf : PdfInput → Except (List Char) (List Char)
  | PdfInput.unreadable cause => Except.error (pdf_error_msg ++ cause)
  | PdfInput.readable pages =>
    Except.ok (pages.foldl (fun acc p => acc ++ p ++ ['\n']) [])

/-- A content block of a Bedrock message (`{"text": prompt}`). -/
structure ContentBlock where
  text : List Char
deriving DecidableEq

/-- A Bedrock message (`{"role": ..., "content": [...]}`). -/
structure Message where
  role : List Char
  content : List ContentBlock
deriving DecidableEq

/-- The inference configuration passed to the Converse API.  The sampling
parameters are carried as exact rationals; the source never computes with
them. -/
structure InferenceConfig where
  maxTokens : Nat
  temperature : Rat
  topP : Rat
deriving DecidableEq

/-- The two request-body shapes constructed by `invoke_model` depending on
the model family. -/
inductive RequestBody where
  | nova (messages : List Message) (cfg : InferenceConfig) : RequestBody
  | other (prompt : List Char) (max_tokens : Nat) (temperature : Rat) : RequestBody
deriving DecidableEq

/-- The request actually issued by `self.bedrock_client.converse(...)`. -/
structure ConverseRequest where
  modelId : List Char
  messages : List Message
  inferenceConfig : InferenceConfig
deriving DecidableEq

/-- The `message_list` of `invoke_model`: one user-role message holding the
prompt. -/
def message_list (prompt : List Char) : List Message :=
  [⟨"user".toList, [⟨prompt⟩]⟩]

/-- The `request_body` constructed by `invoke_model`: the Nova shape when
the substring `amazon.nova` occurs in the model id, the default shape
otherwise.  The source builds this value but never passes it to the
invocation call. -/
def build_request_body (prompt model_id : List Char) (max_tokens : Nat)
    (temperature : Rat) : RequestBody :=
  if (findSub "amazon.nova".toList model_id).isSome then
    RequestBody.nova (message_list prompt) ⟨max_tokens, temperature, 0.9⟩
  else
    RequestBody.other prompt max_tokens temperature

/-- The network request issued by `invoke_model` (lines 36-65): the
`converse` call receives the model id, the single-user-message list and the
inference configuration with the given bounds and `topP = 0.9`; the
`request_body` value is built and then ignored, exactly as in the source. -/
def invoke_model_request (prompt model_id : List Char) (max_tokens : Nat)
    (temperature : Rat) : ConverseRequest :=
  let _request_body := build_request_body prompt model_id max_tokens temperature
  ⟨model_id, message_list prompt, ⟨max_tokens, temperature, 0.9⟩⟩

/-- The response text of the spec's parsing example for the Analysis
Client. -/
def c4_example_text : List Char :=
  "Here you go: ".toList ++ [obrace] ++ "\"a\": 1".toList ++ [cbrace] ++ " done".toList

/-- The mapping the parsing example must produce. -/
def c4_example_json : Json := Json.obj [("a".toList, Json.num 1)]

/-- A response text containing no braces at all. -/
def c5_example_text : List Char := "plain text without structure".toList

/-- Another brace-free response text, for the fallback-key comparison. -/
def c8_example_text : List Char := "model said nothing structured".toList

/-- A text whose only marker occurrence is `responsibilities` early and
`job description` late. -/
def c1_example_text : List Char :=
  "Responsibilities: do work. Job Description: build things.".toList

/-- A short marker-free text. -/
def c3_example_text : List Char := "hello world".toList

/-- A line holding a tab directly after a two-space run, separating the
source normalization from the literal reference normalization. -/
def c9_example_text : List Char := "a  \tb".toList

theorem findSub_some_isPfx (p : List Char) :
    ∀ (s : List Char) (i : Nat), findSub p s = some i → isPfx p (s.drop i) = true := by
  intro s
  induction s with
  | nil =>
    intro i h
    simp only [findSub] at h
    split at h
    · rename_i hp
      cases h
      simpa using hp
    · exact absurd h (by simp)
  | cons c rest ih =>
    intro i h
    simp only [findSub] at h
    split at h
    · rename_i hp
      cases h
      simpa using hp
    · rw [Option.map_eq_some'] at h
      obtain ⟨j, hj, rfl⟩ := h
      simpa [List.drop_succ_cons] using ih j hj

theorem findSub_none_isPfx (p : List Char) :
    ∀ (s : List Char), findSub p s = none → ∀ i, isPfx p (s.drop i) = false := by
  intro s
  induction s with
  | nil =>
    intro h i
    simp only [findSub] at h
    split at h
    · exact absurd h (by simp)
    · rename_i hp
      rw [List.drop_nil]
      exact Bool.eq_false_iff.mpr hp
  | cons c rest ih =>
    intro h i
    simp only [findSub] at h
    split at h
    · exact absurd h (by simp)
    · rename_i hp
      rw [Option.map_eq_none'] at h
      cases i with
      | zero => exact Bool.eq_false_iff.mpr hp
      | succ j => simpa [List.drop_succ_cons] using ih h j

theorem findSub_of_isPfx (p s : List Char) (h : isPfx p s = true) :
    findSub p s = some 0 := by
  cases s <;> simp [findSub, h]

theorem isPfx_of_isPfx_take :
    ∀ (p l : List Char) (n : Nat), isPfx p (l.take n) = true → isPfx p l = true := by
  intro p
  induction p with
  | nil => intro l n _; rfl
  | cons a as ih =>
    intro l n h
    cases l with
    | nil => simp [List.take_nil, isPfx] at h
    | cons b bs =>
      cases n with
      | zero => simp [isPfx] at h
      | succ m =>
        rw [List.take_succ_cons] at h
        simp only [isPfx, Bool.and_eq_true] at h ⊢
        exact ⟨h.1, ih bs m h.2⟩

theorem isPfx_take_of_isPfx :
    ∀ (p l : List Char) (n : Nat), isPfx p l = true → p.length ≤ n →
      isPfx p (l.take n) = true := by
  intro p
  induction p with
  | nil => intro l n _ _; rfl
  | cons a as ih =>
    intro l n h hn
    cases l with
    | nil => simp [isPfx] at h
    | cons b bs =>
      cases n with
      | zero => simp at hn
      | succ m =>
        rw [List.take_succ_cons]
        simp only [isPfx, Bool.and_eq_true] at h ⊢
        refine ⟨h.1, ih bs m h.2 ?_⟩
        simpa using Nat.le_of_succ_le_succ hn

theorem isPfx_slice (p l : List Char) (i n k : Nat)
    (h : isPfx p (((l.drop i).take n).drop k) = true) :
    isPfx p (l.drop (i + k)) = true := by
  rw [List.drop_take, List.drop_drop] at h
  exact isPfx_of_isPfx_take p _ _ h

theorem findSub_slice_none (p l : List Char) (i n : Nat) (h : findSub p l = none) :
    findSub p ((l.drop i).take n) = none := by
  cases hf : findSub p ((l.drop i).take n) with
  | none => rfl
  | some k =>
    have hk := findSub_some_isPfx p _ k hf
    have hocc := isPfx_slice p l i n k hk
    have hnone := findSub_none_isPfx p l h (i + k)
    rw [hocc] at hnone
    cases hnone

theorem findMarker_slice_none :
    ∀ (ps : List (List Char)) (l : List Char) (i n : Nat), findMarker ps l = none →
      findMarker ps ((l.drop i).take n) = none := by
  intro ps
  induction ps with
  | nil => intro l i n _; rfl
  | cons p ps ih =>
    intro l i n h
    simp only [findMarker] at h ⊢
    cases hf : findSub p l with
    | some k => simp [hf] at h
    | none =>
      rw [hf] at h
      rw [findSub_slice_none p l i n hf]
      exact ih l i n h

theorem findMarker_slice_some :
    ∀ (ps : List (List Char)) (l : List Char) (i : Nat),
      (∀ p ∈ ps, p.length ≤ 5000) → findMarker ps l = some i →
      findMarker ps ((l.drop i).take 5000) = some 0 := by
  intro ps
  induction ps with
  | nil => intro l i _ h; exact absurd h (by simp [findMarker])
  | cons p ps ih =>
    intro l i hlen h
    simp only [findMarker] at h ⊢
    cases hf : findSub p l with
    | some k =>
      rw [hf] at h
      cases h
      have hocc := findSub_some_isPfx p l i hf
      have htake := isPfx_take_of_isPfx p (l.drop i) 5000 hocc
        (hlen p (List.mem_cons_self p ps))
      rw [findSub_of_isPfx p _ htake]
    | none =>
      rw [hf] at h
      rw [findSub_slice_none p l i 5000 hf]
      exact ih l i (fun q hq => hlen q (List.mem_cons_of_mem p hq)) h

theorem lower_slice (t : List Char) (i n : Nat) :
    lower ((t.drop i).take n) = ((lower t).drop i).take n := by
  simp [lower, List.map_take, List.map_drop]

theorem section_excerpt_idem (ps : List (List Char))
    (hlen : ∀ p ∈ ps, p.length ≤ 5000) (t : List Char) :
    section_excerpt ps (section_excerpt ps t) = section_excerpt ps t := by
  cases hm : findMarker ps (lower t) with
  | none =>
    have hinner : section_excerpt ps t = t.take 5000 := by
      simp [section_excerpt, hm]
    rw [hinner]
    have h2 : findMarker ps (lower (t.take 5000)) = none := by
      have he : lower (t.take 5000) = ((lower t).drop 0).take 5000 := by
        simpa using lower_slice t 0 5000
      rw [he]
      exact findMarker_slice_none ps (lower t) 0 5000 hm
    simp [section_excerpt, h2, List.take_take]
  | some i =>
    have hinner : section_excerpt ps t = (t.drop i).take 5000 := by
      simp [section_excerpt, hm]
    rw [hinner]
    have h0 : findMarker ps (lower ((t.drop i).take 5000)) = some 0 := by
      rw [lower_slice]
      exact findMarker_slice_some ps (lower t) i hlen hm
    simp [section_excerpt, h0, List.take_take]

theorem cleanChunks_cons (p : List Char) (X : List (List Char)) :
    cleanChunks (p :: X) =
      if (strip p).isEmpty then cleanChunks X else strip p :: cleanChunks X := by
  simp only [cleanChunks, List.map_cons, List.filter_cons]
  cases h : (strip p).isEmpty <;> simp [h]

theorem cleanChunks_empty_cons (X : List (List Char)) :
    cleanChunks (([] : List Char) :: X) = cleanChunks X := by
  rw [cleanChunks_cons]
  simp [show strip ([] : List Char) = [] from rfl]

theorem cleanChunks_append (X Y : List (List Char)) :
    cleanChunks (X ++ Y) = cleanChunks X ++ cleanChunks Y := by
  simp [cleanChunks]

theorem strip_sp_cons (p : List Char) : strip (sp :: p) = strip p := by
  have hsp : isPySpace sp = true := by decide
  simp [strip, List.dropWhile_cons, hsp]

theorem cleanChunks_consHead_sp (X : List (List Char)) :
    cleanChunks (consHead sp X) = cleanChunks X := by
  cases X with
  | nil => decide
  | cons p ps => simp [consHead, cleanChunks_cons, strip_sp_cons]

theorem consHeadList_consHead (acc : List Char) (a : Char) (X : List (List Char)) :
    consHeadList acc (consHead a X) = consHeadList (acc ++ [a]) X := by
  cases X <;> simp [consHead, consHeadList]

theorem cleanChunks_consHeadList_nil (X : List (List Char)) :
    cleanChunks (consHeadList [] X) = cleanChunks X := by
  cases X with
  | nil => decide
  | cons p ps => simp [consHeadList]

theorem cleanChunks_split2sp_dropWhile :
    ∀ (n : Nat) (l : List Char), l.length ≤ n →
      cleanChunks (split2sp (l.dropWhile (fun c => c == sp))) =
        cleanChunks (split2sp l) := by
  intro n
  induction n with
  | zero =>
    intro l hl
    have hnil : l = [] := List.eq_nil_of_length_eq_zero (Nat.le_zero.mp hl)
    subst hnil; rfl
  | succ n ih =>
    intro l hl
    cases l with
    | nil => rfl
    | cons c r =>
      by_cases hc : (c == sp) = true
      · have hceq : c = sp := by simpa using hc
        subst hceq
        rw [show (sp :: r).dropWhile (fun c => c == sp) = r.dropWhile (fun c => c == sp) by
          rw [List.dropWhile_cons]; simp]
        cases r with
        | nil => decide
        | cons d r2 =>
          by_cases hd : (d == sp) = true
          · have hdeq : d = sp := by simpa using hd
            subst hdeq
            rw [show (sp :: r2).dropWhile (fun c => c == sp) = r2.dropWhile (fun c => c == sp) by
              rw [List.dropWhile_cons]; simp]
            rw [show split2sp (sp :: sp :: r2) = [] :: split2sp r2 by simp [split2sp]]
            rw [cleanChunks_empty_cons]
            have hr2 : r2.length ≤ n := by simp only [List.length_cons] at hl; omega
            exact ih r2 hr2
          · rw [Bool.not_eq_true] at hd
            rw [show (d :: r2).dropWhile (fun c => c == sp) = d :: r2 by
              rw [List.dropWhile_cons]; simp [hd]]
            rw [show split2sp (sp :: d :: r2) = consHead sp (split2sp (d :: r2)) by
              simp [split2sp, hd]]
            rw [cleanChunks_consHead_sp]
      · rw [Bool.not_eq_true] at hc
        rw [show (c :: r).dropWhile (fun c => c == sp) = c :: r by
          rw [List.dropWhile_cons]; simp [hc]]

theorem srM_true_eq :
    ∀ s : List Char, srM true s = srM false (s.dropWhile (fun c => c == sp)) := by
  intro s
  induction s with
  | nil => rfl
  | cons c rest ih =>
    by_cases hc : (c == sp) = true
    · have hceq : c = sp := by simpa using hc
      subst hceq
      rw [show srM true (sp :: rest) = srM true rest by simp [srM]]
      rw [ih]
      rw [show (sp :: rest).dropWhile (fun c => c == sp) = rest.dropWhile (fun c => c == sp) by
        rw [List.dropWhile_cons]; simp]
    · rw [Bool.not_eq_true] at hc
      rw [show srM true (c :: rest) = consHead c (srM false rest) by simp [srM, hc]]
      rw [show (c :: rest).dropWhile (fun c => c == sp) = c :: rest by
        rw [List.dropWhile_cons]; simp [hc]]
      cases rest with
      | nil => rfl
      | cons d r2 =>
        rw [show srM false (c :: d :: r2) = consHead c (srM false (d :: r2)) by
          simp [srM, hc]]

theorem cleanChunks_split_eq :
    ∀ (n : Nat) (l : List Char), l.length ≤ n → ∀ acc : List Char,
      cleanChunks (consHeadList acc (split2sp l)) =
        cleanChunks (consHeadList acc (srM false l)) := by
  intro n
  induction n with
  | zero =>
    intro l hl acc
    have hnil : l = [] := List.eq_nil_of_length_eq_zero (Nat.le_zero.mp hl)
    subst hnil; rfl
  | succ n ih =>
    intro l hl acc
    cases l with
    | nil => rfl
    | cons a r =>
      cases r with
      | nil => rfl
      | cons b r2 =>
        by_cases hab : (a == sp && b == sp) = true
        · rw [show split2sp (a :: b :: r2) = [] :: split2sp r2 by simp [split2sp, hab]]
          rw [show srM false (a :: b :: r2) = [] :: srM true r2 by simp [srM, hab]]
          rw [show consHeadList acc ([] :: split2sp r2) = acc :: split2sp r2 by
            simp [consHeadList]]
          rw [show consHeadList acc ([] :: srM true r2) = acc :: srM true r2 by
            simp [consHeadList]]
          rw [cleanChunks_cons, cleanChunks_cons]
          have hr2 : r2.length ≤ n := by simp only [List.length_cons] at hl; omega
          have hdw : (r2.dropWhile (fun c => c == sp)).length ≤ n :=
            le_trans (List.dropWhile_sublist _).length_le hr2
          have key : cleanChunks (split2sp r2) = cleanChunks (srM true r2) := by
            rw [srM_true_eq]
            calc cleanChunks (split2sp r2)
                = cleanChunks (split2sp (r2.dropWhile (fun c => c == sp))) :=
                  (cleanChunks_split2sp_dropWhile n r2 hr2).symm
              _ = cleanChunks (consHeadList [] (split2sp (r2.dropWhile (fun c => c == sp)))) :=
                  (cleanChunks_consHeadList_nil _).symm
              _ = cleanChunks (consHeadList [] (srM false (r2.dropWhile (fun c => c == sp)))) :=
                  ih _ hdw []
              _ = cleanChunks (srM false (r2.dropWhile (fun c => c == sp))) :=
                  cleanChunks_consHeadList_nil _
          rw [key]
        · rw [Bool.not_eq_true] at hab
          rw [show split2sp (a :: b :: r2) = consHead a (split2sp (b :: r2)) by
            simp [split2sp, hab]]
          rw [show srM false (a :: b :: r2) = consHead a (srM false (b :: r2)) by
            simp [srM, hab]]
          rw [consHeadList_consHead, consHeadList_consHead]
          refine ih (b :: r2) ?_ (acc ++ [a])
          simp only [List.length_cons] at hl ⊢
          omega

theorem cleanChunks_line (l : List Char) :
    cleanChunks (split2sp l) = cleanChunks (splitRuns l) := by
  have h := cleanChunks_split_eq l.length l (le_refl _) []
  rw [cleanChunks_consHeadList_nil, cleanChunks_consHeadList_nil] at h
  exact h

theorem cleanChunks_flat (L : List (List Char)) :
    cleanChunks (L.flatMap split2sp) = cleanChunks (L.flatMap splitRuns) := by
  induction L with
  | nil => rfl
  | cons l L ih =>
    simp only [List.flatMap_cons]
    rw [cleanChunks_append, cleanChunks_append, cleanChunks_line, ih]

/-- C1: for every input text in which the marker `responsibilities` occurs
(first occurrence at `j`) and the marker `job description` occurs later
(first occurrence at `i`, with `j < i`), the Section Locator returns the
excerpt starting at the `job description` occurrence, because markers are
tried in priority order with early exit and `job description` is first. -/
theorem find_job_section_priority (t : List Char) (i j : Nat)
    (hi : findSub ("job description".toList) (lower t) = some i)
    (_hj : findSub ("responsibilities".toList) (lower t) = some j)
    (_hlt : j < i) :
    find_job_section t = (t.drop i).take 5000 := by
  have hm : findMarker job_desc_patterns (lower t) = some i := by
    simp only [job_desc_patterns, findMarker]
    rw [hi]
  simp [find_job_section, section_excerpt, hm]

/-- Witness for C1 at a concrete text whose `responsibilities` occurrence
(index 0) is earlier than its `job description` occurrence (index 27). -/
theorem find_job_section_priority_witness :
    findSub ("job description".toList) (lower c1_example_text) = some 27 ∧
    findSub ("responsibilities".toList) (lower c1_example_text) = some 0 ∧
    0 < 27 ∧
    find_job_section c1_example_text = (c1_example_text.drop 27).take 5000 :=
  ⟨by decide, by decide, by decide,
    find_job_section_priority c1_example_text 27 0 (by decide) (by decide) (by decide)⟩

/-- C2: for every input text, the excerpt returned by the Section Locator
has length at most 5000 characters, in the marker branch and in the
no-marker fallback alike. -/
theorem find_job_section_length_le (t : List Char) :
    (find_job_section t).length ≤ 5000 := by
  unfold find_job_section section_excerpt
  cases hm : findMarker job_desc_patterns (lower t) with
  | none =>
    simp only [hm]
    exact t.length_take_le 5000
  | some i =>
    simp only [hm]
    exact (t.drop i).length_take_le 5000

/-- C3: for every input text shorter than 5000 characters in which no
marker phrase matches case-insensitively, the Section Locator returns the
entire input unchanged. -/
theorem find_job_section_short_no_marker (t : List Char)
    (hm : findMarker job_desc_patterns (lower t) = none)
    (hlen : t.length < 5000) :
    find_job_section t = t := by
  unfold find_job_section section_excerpt
  simp [hm, List.take_of_length_le (le_of_lt hlen)]

/-- Witness for C3 at a concrete short marker-free text. -/
theorem find_job_section_short_no_marker_witness :
    findMarker job_desc_patterns (lower c3_example_text) = none ∧
    c3_example_text.length < 5000 ∧
    find_job_section c3_example_text = c3_example_text :=
  ⟨by decide, by decide,
    find_job_section_short_no_marker c3_example_text (by decide) (by decide)⟩

/-- C4: for every response text whose first opening brace at `i` precedes
its last closing brace at `j`, the Analysis Client parser hands exactly the
substring from `i` through `j` inclusive to the structured parser and, on
success, returns the parsed mapping. -/
theorem analyze_cv_parse_braces (s : List Char) (i j : Nat) (v : Json)
    (hi : find_char obrace s = some i)
    (hj : rfind_char cbrace s = some j)
    (hij : i < j)
    (hv : json_loads ((s.drop i).take (j + 1 - i)) = some v) :
    analyze_cv_parse s = v := by
  have hext : extract_json s = some ((s.drop i).take (j + 1 - i)) := by
    simp [extract_json, hi, hj, Nat.lt_succ_of_lt hij]
  simp [analyze_cv_parse, hext, hv]

/-- Witness for C4 at the response text of the spec example, which parses
to the mapping holding `a` with value 1. -/
theorem analyze_cv_parse_braces_witness :
    find_char obrace c4_example_text = some 13 ∧
    rfind_char cbrace c4_example_text = some 20 ∧
    13 < 20 ∧
    json_loads ((c4_example_text.drop 13).take (20 + 1 - 13)) = some c4_example_json ∧
    analyze_cv_parse c4_example_text = c4_example_json :=
  ⟨by decide, by decide, by decide, rfl,
    analyze_cv_parse_braces c4_example_text 13 20 c4_example_json
      (by decide) (by decide) (by decide) rfl⟩

/-- C5: for every response text on which the brace window is absent or the
structured parse fails, the analysis operations return (without raising,
being total functions) the single-field fallback mapping holding the
original response text verbatim. -/
theorem analyze_parse_fallback (s : List Char)
    (h : ∀ sub, extract_json s = some sub → json_loads sub = none) :
    analyze_cv_parse s = Json.obj [("raw_analysis".toList, Json.str s)] ∧
    generate_suggestions_parse s = Json.obj [("suggestions".toList, Json.str s)] := by
  cases hext : extract_json s with
  | none =>
    exact ⟨by simp [analyze_cv_parse, hext], by simp [generate_suggestions_parse, hext]⟩
  | some sub =>
    have hl := h sub hext
    exact ⟨by simp [analyze_cv_parse, hext, hl],
      by simp [generate_suggestions_parse, hext, hl]⟩

/-- Witness for C5 at a response text with no braces at all: the fallback
mapping holds the original text exactly. -/
theorem analyze_parse_fallback_witness :
    analyze_cv_parse c5_example_text =
      Json.obj [("raw_analysis".toList, Json.str c5_example_text)] ∧
    generate_suggestions_parse c5_example_text =
      Json.obj [("suggestions".toList, Json.str c5_example_text)] :=
  analyze_parse_fallback c5_example_text (fun sub hsub => by
    rw [show extract_json c5_example_text = none from rfl] at hsub
    exact Option.noConfusion hsub)

/-- C6 counterexample: a readable zero-page document makes the page loop
run zero times, so the Text Extractor returns the empty string successfully
instead of failing with an extraction error. -/
theorem extract_text_zero_pages_ok :
    extract_text_from_pdf (PdfInput.readable []) = Except.ok [] := rfl

/-- C6 (amended): for every unreadable document, the Text Extractor fails
with an extraction error wrapping the underlying cause; a readable document
with an empty page set instead returns the empty string successfully. -/
theorem extract_text_unreadable_error (cause : List Char) :
    extract_text_from_pdf (PdfInput.unreadable cause) =
      Except.error (pdf_error_msg ++ cause) ∧
    extract_text_from_pdf (PdfInput.readable []) = Except.ok [] :=
  ⟨rfl, rfl⟩

/-- C7: for every prompt, model identifier, token bound and temperature,
the request issued by `invoke_model` has the single fixed shape — the model
id, one user-role message holding the prompt, and the inference
configuration with the given bounds and nucleus-sampling threshold 0.9 —
independent of which request-body branch was taken, because the constructed
`request_body` is never sent. -/
theorem invoke_model_request_fixed_shape (prompt model_id : List Char)
    (max_tokens : Nat) (temperature : Rat) :
    invoke_model_request prompt model_id max_tokens temperature =
      ⟨model_id, message_list prompt, ⟨max_tokens, temperature, 0.9⟩⟩ := rfl

/-- C8: whenever structured parsing falls back to the raw-text mapping, the
two analysis operations use the fallback key `raw_analysis`, the
suggestion-synthesis operation uses the fallback key `suggestions`, and the
two key names are distinct. -/
theorem fallback_keys_distinct (s : List Char)
    (h : ∀ sub, extract_json s = some sub → json_loads sub = none) :
    analyze_cv_parse s = Json.obj [("raw_analysis".toList, Json.str s)] ∧
    analyze_job_description_parse s = Json.obj [("raw_analysis".toList, Json.str s)] ∧
    generate_suggestions_parse s = Json.obj [("suggestions".toList, Json.str s)] ∧
    "raw_analysis".toList ≠ "suggestions".toList := by
  cases hext : extract_json s with
  | none =>
    exact ⟨by simp [analyze_cv_parse, hext],
      by simp [analyze_job_description_parse, hext],
      by simp [generate_suggestions_parse, hext], by decide⟩
  | some sub =>
    have hl := h sub hext
    exact ⟨by simp [analyze_cv_parse, hext, hl],
      by simp [analyze_job_description_parse, hext, hl],
      by simp [generate_suggestions_parse, hext, hl], by decide⟩

/-- Witness for C8 at a concrete brace-free response text. -/
theorem fallback_keys_distinct_witness :
    analyze_cv_parse c8_example_text =
      Json.obj [("raw_analysis".toList, Json.str c8_example_text)] ∧
    analyze_job_description_parse c8_example_text =
      Json.obj [("raw_analysis".toList, Json.str c8_example_text)] ∧
    generate_suggestions_parse c8_example_text =
      Json.obj [("suggestions".toList, Json.str c8_example_text)] ∧
    "raw_analysis".toList ≠ "suggestions".toList :=
  fallback_keys_distinct c8_example_text (fun sub hsub => by
    rw [show extract_json c8_example_text = none from rfl] at hsub
    exact Option.noConfusion hsub)

/-- C9 counterexample: on the line `a  (tab)b` the source normalization
also strips the tab from the fragment after the two-space run, while the
literal reference normalization keeps it, so the two differ. -/
theorem normalize_whitespace_ref_counterexample :
    normalize_whitespace c9_example_text ≠ normalize_whitespace_ref c9_example_text := by
  decide

/-- C9 (amended): for every extracted text, the source whitespace
normalization equals the reference definition once each fragment produced
by the run splitting is also trimmed before empty fragments are
discarded. -/
theorem normalize_whitespace_eq_ref_trimmed (text : List Char) :
    normalize_whitespace text = normalize_whitespace_ref_trimmed text := by
  show List.intercalate ['\n']
      (cleanChunks (((splitlines text).map strip).flatMap split2sp)) =
    List.intercalate ['\n']
      (cleanChunks (((splitlines text).map strip).flatMap splitRuns))
  rw [cleanChunks_flat]

/-- C10: the Section Locator is idempotent — applying the locate-and-excerpt
step to its own output returns that output unchanged. -/
theorem find_job_section_idem (t : List Char) :
    find_job_section (find_job_section t) = find_job_section t := by
  have hlen : ∀ p ∈ job_desc_patterns, p.length ≤ 5000 := by decide
  exact section_excerpt_idem job_desc_patterns hlen t
